import Mathlib

/-!
Shallow embedding of the gameservers-dashboard discovery/classification engine
(`app/kubernetes/client.py`) and proofs about it.

Conventions of the embedding:
* Python floats are modelled as exact rationals (`ℚ`); every concrete value we
  reason about is exactly representable, so the model agrees with IEEE doubles
  on all inputs appearing in the theorems.
* Python `int(x)` truncation toward zero is `pyInt`.
* A Python function that can raise is modelled with `Option`/`Except`; the
  caught exception classes are reflected in the error type.
* Kubernetes API calls are modelled as an oracle structure `K8sApi` whose
  fields give the outcome of each call the client can issue.
-/

/-- Accumulate decimal digits; fails on a non-digit character, mirroring the
way Python numeric conversion rejects malformed text. -/
def digitsValGo (acc : Nat) : List Char → Option Nat
  | [] => some acc
  | c :: cs => if c.isDigit then digitsValGo (acc * 10 + (c.toNat - 48)) cs else none

/-- Value of a (possibly empty) run of digits; the empty run counts as 0 so
that `"1."` and `".5"` parse the way Python `float` parses them. -/
def partVal (cs : List Char) : Option Nat :=
  digitsValGo 0 cs

/-- Split a character list at the first decimal point. -/
def splitAtDot : List Char → List Char × Option (List Char)
  | [] => ([], none)
  | c :: cs =>
    if c = '.' then ([], some cs)
    else
      let r := splitAtDot cs
      (c :: r.1, r.2)

/-- Model of Python `float(s)` on the decimal literals the client feeds it:
digits with an optional single decimal point.  `none` models a raised
`ValueError`. -/
def parseFloatQ (s : String) : Option ℚ :=
  match splitAtDot s.toList with
  | (ip, none) => if ip = [] then none else (partVal ip).map (fun n => (n : ℚ))
  | (ip, some fp) =>
    if fp.contains '.' then none
    else if ip = [] ∧ fp = [] then none
    else match partVal ip, partVal fp with
      | some i, some f => some ((i : ℚ) + (f : ℚ) / (10 : ℚ) ^ fp.length)
      | _, _ => none

/-- Model of Python `int(x)` on a float: truncation toward zero. -/
def pyInt (q : ℚ) : ℤ :=
  if q < 0 then -(Int.floor (-q)) else Int.floor q

/-- Model of Python `int(s)` on a string: a run of decimal digits.  `none`
models a raised `ValueError`. -/
def parseIntStr (s : String) : Option ℤ :=
  if s.toList = [] then none
  else (digitsValGo 0 s.toList).map (fun n => (n : ℤ))

/-- Computable model of `str.endswith`. -/
def strEndsWith (s sfx : String) : Bool :=
  sfx.toList.isSuffixOf s.toList

/-- Computable model of the slice `s[:-n]`. -/
def strDropRight (s : String) (n : Nat) : String :=
  String.mk (s.toList.take (s.toList.length - n))

/-- `_parse_cpu_metrics`: CPU quantity string to millicores.  Empty → 0,
suffix `m` → value as-is, suffix `n` → value / 1 000 000, otherwise cores
× 1000. -/
def parseCpuMetrics (s : String) : Option ℚ :=
  if s.toList = [] then some 0
  else if strEndsWith s "m" then parseFloatQ (strDropRight s 1)
  else if strEndsWith s "n" then (parseFloatQ (strDropRight s 1)).map (fun q => q / 1000000)
  else (parseFloatQ s).map (fun q => q * 1000)

/-- `_parse_memory_metrics`: memory quantity string to bytes.  Binary suffixes
`Ki/Mi/Gi/Ti` (powers of 1024) are tried first, then decimal `K/M/G/T`
(powers of 1000), then a raw byte integer. -/
def parseMemoryMetrics (s : String) : Option ℤ :=
  if s.toList = [] then some 0
  else if strEndsWith s "Ki" then (parseFloatQ (strDropRight s 2)).map (fun q => pyInt (q * 2 ^ 10))
  else if strEndsWith s "Mi" then (parseFloatQ (strDropRight s 2)).map (fun q => pyInt (q * 2 ^ 20))
  else if strEndsWith s "Gi" then (parseFloatQ (strDropRight s 2)).map (fun q => pyInt (q * 2 ^ 30))
  else if strEndsWith s "Ti" then (parseFloatQ (strDropRight s 2)).map (fun q => pyInt (q * 2 ^ 40))
  else if strEndsWith s "K" then (parseFloatQ (strDropRight s 1)).map (fun q => pyInt (q * 10 ^ 3))
  else if strEndsWith s "M" then (parseFloatQ (strDropRight s 1)).map (fun q => pyInt (q * 10 ^ 6))
  else if strEndsWith s "G" then (parseFloatQ (strDropRight s 1)).map (fun q => pyInt (q * 10 ^ 9))
  else if strEndsWith s "T" then (parseFloatQ (strDropRight s 1)).map (fun q => pyInt (q * 10 ^ 12))
  else parseIntStr s

/-- Round to the nearest integer, ties to even — the rounding of Python's
fixed-point float formatting on exactly representable values. -/
def roundHalfEven (q : ℚ) : ℤ :=
  let f := Int.floor q
  let r := q - f
  if r < 1 / 2 then f
  else if 1 / 2 < r then f + 1
  else if f % 2 = 0 then f else f + 1

/-- Model of the f-string `:.2f` conversion on the nonnegative values the
client formats. -/
def fmt2 (q : ℚ) : String :=
  let h := (roundHalfEven (q * 100)).toNat
  toString (h / 100) ++ "." ++ (if h % 100 < 10 then "0" ++ toString (h % 100) else toString (h % 100))

/-- `_format_cpu`: millicores for display. -/
def formatCpu (millicores : ℚ) : String :=
  if 1000 ≤ millicores then fmt2 (millicores / 1000) ++ " cores"
  else toString (pyInt millicores) ++ "m"

/-- `_format_memory`: bytes for display, largest binary unit first. -/
def formatMemory (bytesVal : ℤ) : String :=
  if 2 ^ 30 ≤ bytesVal then fmt2 ((bytesVal : ℚ) / 2 ^ 30) ++ "Gi"
  else if 2 ^ 20 ≤ bytesVal then fmt2 ((bytesVal : ℚ) / 2 ^ 20) ++ "Mi"
  else if 2 ^ 10 ≤ bytesVal then fmt2 ((bytesVal : ℚ) / 2 ^ 10) ++ "Ki"
  else toString bytesVal ++ "B"

/-- The annotation keys recognised on a workload (`GAME_ANNOTATION` etc.). -/
def gameKey : String := "game-server/game"

def instanceKey : String := "game-server/instance"

def componentKey : String := "game-server/component"

def filesUrlKey : String := "game-server/files-url"

/-- One entry of `item.status.conditions`. -/
structure RawCondition where
  ctype : String
  cstatus : String
  message : Option String
  lastTransitionTime : Option String
deriving Repr, DecidableEq

/-- A raw deployment object as seen by `_process_deployment_item`: the fields
of the Kubernetes model the function reads.  The annotation map is `none`
when `metadata.annotations` is `None`. -/
structure RawDeployment where
  name : String
  nspace : String
  annots : Option (List (String × String))
  specReplicas : Nat
  availableReplicas : Option Nat
  unavailableReplicas : Option Nat
  conditions : Option (List RawCondition)
  matchLabels : Option (List (String × String))
deriving Repr, DecidableEq

/-- One entry of the condition list copied into a `DeploymentStatus`. -/
structure CondEntry where
  ctype : String
  cstatus : String
  message : Option String
  lastTransitionTime : Option String
deriving Repr, DecidableEq

/-- The `DeploymentStatus` pydantic model. -/
structure DeploymentStatus where
  name : String
  nspace : String
  game : String
  inst : String
  component : String
  replicas : Nat
  availableReplicas : Option Nat := none
  unavailableReplicas : Option Nat := none
  status : String
  conditions : List CondEntry := []
  cpuUsage : Option String := none
  memoryUsage : Option String := none
  selectorLabels : List (String × String) := []
  filesUrl : Option String := none
deriving Repr, DecidableEq

/-- The `GameInstance` pydantic model. -/
structure GameInstance where
  name : String
  components : List DeploymentStatus
deriving Repr, DecidableEq

/-- The `Game` pydantic model. -/
structure Game where
  name : String
  instanceCount : Nat
  componentCount : Nat
  failingDeployments : Nat
deriving Repr, DecidableEq

/-- `_process_deployment_item`: classify one raw workload, or reject it
(`none`) when the game annotation is absent or empty. -/
def processDeploymentItem (item : RawDeployment) : Option DeploymentStatus :=
  let annots := item.annots.getD []
  match annots.lookup gameKey with
  | none => none
  | some game =>
    if game = "" then none
    else
      let inst := (annots.lookup instanceKey).getD "unknown"
      let component := (annots.lookup componentKey).getD "unknown"
      let availPos : Bool :=
        match item.availableReplicas with
        | some a => decide (0 < a)
        | none => false
      let status :=
        if item.specReplicas = 0 ∨ availPos then "active"
        else "failed"
      let conds := (item.conditions.getD []).map
        (fun c => CondEntry.mk c.ctype c.cstatus c.message c.lastTransitionTime)
      some
        { name := item.name
          nspace := item.nspace
          game := game
          inst := inst
          component := component
          replicas := item.specReplicas
          availableReplicas := some (item.availableReplicas.getD 0)
          unavailableReplicas := some (item.unavailableReplicas.getD 0)
          status := status
          conditions := conds
          selectorLabels := item.matchLabels.getD []
          filesUrl := annots.lookup filesUrlKey }

/-- A per-container usage block of a metrics API item; `none` models a missing
key in the `usage` dict (read with default `"0"`). -/
structure ContainerUsage where
  cpu : Option String
  memory : Option String
deriving Repr, DecidableEq

/-- One item of the metrics API response. -/
structure MetricItem where
  podName : String
  containers : List ContainerUsage
deriving Repr, DecidableEq

/-- The per-pod record `get_pod_metrics` builds. -/
structure PodMetrics where
  cpuDisp : String
  memoryDisp : String
  cpuRaw : ℚ
  memoryRaw : ℤ
deriving Repr, DecidableEq

/-- A Kubernetes API error (`ApiException`), identified by its HTTP status. -/
structure ApiErr where
  status : Nat
deriving Repr, DecidableEq

/-- A raw container spec entry of a pod. -/
structure RawContainer where
  name : String
  image : String
deriving Repr, DecidableEq

/-- A raw container status entry of a pod. -/
structure RawContainerStatus where
  ready : Bool
deriving Repr, DecidableEq

/-- A raw pod object, with its creation timestamp already rendered in the ISO
form `isoformat` would produce. -/
structure RawPod where
  name : String
  nspace : String
  phase : Option String
  containerStatuses : Option (List RawContainerStatus)
  containers : List RawContainer
  creationTimestamp : Option String
  annots : Option (List (String × String))
deriving Repr, DecidableEq

/-- Oracle for the orchestrator API: the outcome of every call the client can
issue during one request.  `listNamespacedDeployments` takes the optional
`limit` argument (the access probe passes `some 1`). -/
structure K8sApi where
  listAllDeployments : Except ApiErr (List RawDeployment)
  listNamespacedDeployments : String → Option Nat → Except ApiErr (List RawDeployment)
  listNamespaces : Except ApiErr (List String)
  listPodMetricsRaw : String → String → Except ApiErr (List MetricItem)
  readDeploymentLabels : String → String → Except ApiErr (List (String × String))
  listNamespacedPods : String → String → Except ApiErr (List RawPod)

/-- The probe loop inside `_get_accessible_namespaces`: collect namespaces
whose limit-1 listing succeeds, skip 403 rejections, and re-raise any other
`ApiException` (which the function's own outer handler then catches). -/
def probeLoop (api : K8sApi) : List String → Except ApiErr (List String)
  | [] => .ok []
  | ns :: rest =>
    match api.listNamespacedDeployments ns (some 1) with
    | .ok _ =>
      match probeLoop api rest with
      | .ok acc => .ok (ns :: acc)
      | .error e => .error e
    | .error e => if e.status = 403 then probeLoop api rest else .error e

/-- `_get_accessible_namespaces`: the whole body sits in one
`try/except ApiException` whose handler returns `["default"]`, so both a
failing namespace listing and a re-raised probe error end in the default
fallback. -/
def getAccessibleNamespaces (api : K8sApi) : List String :=
  match api.listNamespaces with
  | .error _ => ["default"]
  | .ok nss =>
    match probeLoop api nss with
    | .ok acc => acc
    | .error _ => ["default"]

/-- `_fetch_deployments`: classify the items of the chosen listing strategy.
`.error ()` models the `HTTPException` raised when a non-403 cluster-wide
failure is re-raised into the outer handler. -/
def fetchDeployments (api : K8sApi) (nsFilter : Option String) :
    Except Unit (List DeploymentStatus) :=
  match nsFilter with
  | some ns =>
    match api.listNamespacedDeployments ns none with
    | .ok items => .ok (items.filterMap processDeploymentItem)
    | .error _ => .ok []
  | none =>
    match api.listAllDeployments with
    | .ok items => .ok (items.filterMap processDeploymentItem)
    | .error e =>
      if e.status = 403 then
        .ok ((getAccessibleNamespaces api).flatMap
          (fun ns =>
            match api.listNamespacedDeployments ns none with
            | .ok items => items.filterMap processDeploymentItem
            | .error _ => []))
      else .error ()

/-- Sum the parsed CPU/memory usage of a pod's containers; `none` models the
`ValueError` a malformed quantity raises out of `get_pod_metrics`. -/
def containerTotalsGo (cpu : ℚ) (mem : ℤ) : List ContainerUsage → Option (ℚ × ℤ)
  | [] => some (cpu, mem)
  | c :: cs =>
    match parseCpuMetrics (c.cpu.getD "0"), parseMemoryMetrics (c.memory.getD "0") with
    | some cv, some mv => containerTotalsGo (cpu + cv) (mem + mv) cs
    | _, _ => none

/-- Dictionary insertion `metrics[pod_name] = …`: replace in place or append. -/
def upsertPM (k : String) (v : PodMetrics) : List (String × PodMetrics) →
    List (String × PodMetrics)
  | [] => [(k, v)]
  | (k2, v2) :: rest => if k2 = k then (k, v) :: rest else (k2, v2) :: upsertPM k v rest

/-- Build the pod → metrics mapping of `get_pod_metrics`. -/
def buildMetrics (acc : List (String × PodMetrics)) : List MetricItem →
    Option (List (String × PodMetrics))
  | [] => some acc
  | it :: its =>
    match containerTotalsGo 0 0 it.containers with
    | none => none
    | some (tc, tm) =>
      buildMetrics (upsertPM it.podName (PodMetrics.mk (formatCpu tc) (formatMemory tm) tc tm) acc) its

/-- `get_pod_metrics`: an `ApiException` (404 capability absence or any other
status) is caught and yields the empty mapping; only a non-`ApiException`
(here: a parse `ValueError`) escapes, modelled by `.error ()`. -/
def getPodMetrics (raw : Except ApiErr (List MetricItem)) :
    Except Unit (List (String × PodMetrics)) :=
  match raw with
  | .error _ => .ok []
  | .ok items =>
    match buildMetrics [] items with
    | some m => .ok m
    | none => .error ()

/-- The label selector `get_deployments` queries metrics with: the selector
labels joined as `k=v` pairs, or the fallback `app=<name>`. -/
def selectorFor (d : DeploymentStatus) : String :=
  if d.selectorLabels = [] then "app=" ++ d.name
  else String.intercalate "," (d.selectorLabels.map (fun kv => kv.1 ++ "=" ++ kv.2))

/-- The per-deployment enrichment step of `get_deployments`, given the raw
outcome of the metrics query for this deployment.  The surrounding
`except Exception` turns any escaping error into the `"Error"` sentinels. -/
def enrichDeployment (d : DeploymentStatus) (raw : Except ApiErr (List MetricItem)) :
    DeploymentStatus :=
  match getPodMetrics raw with
  | .error _ => { d with cpuUsage := some "Error", memoryUsage := some "Error" }
  | .ok [] => { d with cpuUsage := some "N/A", memoryUsage := some "N/A" }
  | .ok (m :: ms) =>
    let tc := ((m :: ms).map (fun p => p.2.cpuRaw)).sum
    let tm := ((m :: ms).map (fun p => p.2.memoryRaw)).sum
    { d with cpuUsage := some (formatCpu tc), memoryUsage := some (formatMemory tm) }

/-- `get_deployments`: fetch, then enrich every record with metrics. -/
def getDeployments (api : K8sApi) (nsFilter : Option String) :
    Except Unit (List DeploymentStatus) :=
  match fetchDeployments api nsFilter with
  | .error e => .error e
  | .ok ds =>
    .ok (ds.map (fun d => enrichDeployment d (api.listPodMetricsRaw d.nspace (selectorFor d))))

/-- The accumulator one game's dict entry holds in `get_games`; the Python
`set`s are modelled as duplicate-free lists (only membership and size are
ever used). -/
structure GameAcc where
  instances : List String
  components : List String
  failing : Nat
deriving Repr, DecidableEq

/-- Add to a modelled `set`. -/
def insertSet (x : String) (l : List String) : List String :=
  if x ∈ l then l else l ++ [x]

/-- The mutation `get_games` applies to a game's accumulator per record. -/
def updAcc (d : DeploymentStatus) (a : GameAcc) : GameAcc :=
  GameAcc.mk (insertSet d.inst a.instances)
    (insertSet (d.inst ++ "/" ++ d.component) a.components)
    (if d.status = "failed" then a.failing + 1 else a.failing)

/-- One step of the `dict`-keyed grouping loop: update the entry of this
record's key in place, or append a fresh one. -/
def updDict {α β : Type} (key : α → String) (upd : α → β → β) (emptyAcc : β) :
    List (String × β) → α → List (String × β)
  | [], d => [(key d, upd d emptyAcc)]
  | (g, a) :: rest, d =>
    if g = key d then (g, upd d a) :: rest else (g, a) :: updDict key upd emptyAcc rest d

/-- The whole grouping loop over the records, in Python insertion order. -/
def dictFold {α β : Type} (key : α → String) (upd : α → β → β) (emptyAcc : β)
    (l : List α) : List (String × β) :=
  l.foldl (updDict key upd emptyAcc) []

instance : DecidableRel (fun g1 g2 : Game => g1.name ≤ g2.name) :=
  fun g1 g2 => inferInstanceAs (Decidable (g1.name ≤ g2.name))

instance : DecidableRel (fun i1 i2 : GameInstance => i1.name ≤ i2.name) :=
  fun i1 i2 => inferInstanceAs (Decidable (i1.name ≤ i2.name))

instance : DecidableRel (fun d1 d2 : DeploymentStatus => d1.component ≤ d2.component) :=
  fun d1 d2 => inferInstanceAs (Decidable (d1.component ≤ d2.component))

/-- The grouping body of `get_games` applied to the discovered record list
(`sorted(..., key=lambda g: g.name)` modelled by a stable insertion sort). -/
def gamesOf (records : List DeploymentStatus) : List Game :=
  List.insertionSort (fun g1 g2 => g1.name ≤ g2.name)
    ((dictFold (fun d => d.game) updAcc (GameAcc.mk [] [] 0) records).map
      (fun p => Game.mk p.1 p.2.instances.length p.2.components.length p.2.failing))

/-- The grouping body of `get_game_instances` applied to the discovered
record list. -/
def gameInstancesOf (records : List DeploymentStatus) (gameName : String) : List GameInstance :=
  let gd := records.filter (fun d => d.game = gameName)
  let m := dictFold (fun d => d.inst) (fun d a => a ++ [d]) ([] : List DeploymentStatus) gd
  List.insertionSort (fun i1 i2 => i1.name ≤ i2.name)
    (m.map (fun p => GameInstance.mk p.1
      (List.insertionSort (fun d1 d2 => d1.component ≤ d2.component) p.2)))

/-- `get_games`: discover, then summarise. -/
def getGames (api : K8sApi) : Except Unit (List Game) :=
  match getDeployments api none with
  | .error e => .error e
  | .ok ds => .ok (gamesOf ds)

/-- `get_game_instances`: discover, then group one game's instances. -/
def getGameInstances (api : K8sApi) (gameName : String) : Except Unit (List GameInstance) :=
  match getDeployments api none with
  | .error e => .error e
  | .ok ds => .ok (gameInstancesOf ds gameName)

/-- The dict `get_deployment_pods` builds per pod.  `createdAt` is the value
stored under the `created_at` key: `None` exactly when the pod has no
creation timestamp (the `.get(…, "")` default in the sort never fires, since
the key is always present). -/
structure PodInfo where
  name : String
  nspace : String
  status : String
  createdAt : Option String
  containers : List (String × String)
  annots : List (String × String)
deriving Repr, DecidableEq

/-- Build one pod's dict: phase-derived status, downgraded to `NotReady` when
`Running` with a non-empty container status list not all ready. -/
def mkPodInfo (p : RawPod) : PodInfo :=
  let st0 : String :=
    match p.phase with
    | some ph => if ph = "" then "Unknown" else ph
    | none => "Unknown"
  let st : String :=
    if st0 = "Running" then
      match p.containerStatuses with
      | some (c :: cs) => if (c :: cs).all (fun s => s.ready) then st0 else "NotReady"
      | _ => st0
    else st0
  PodInfo.mk p.name p.nspace st p.creationTimestamp
    (p.containers.map (fun c => (c.name, c.image))) (p.annots.getD [])

/-- Python `<` on the sort keys: comparing `None` with anything raises
`TypeError` (`.error ()`); two strings compare lexicographically. -/
def pyLtOptStr : Option String → Option String → Except Unit Bool
  | some a, some b => .ok (decide (a < b))
  | _, _ => .error ()

/-- Insert a pod into a descending run, propagating a comparison `TypeError`;
together with `sortPodsDescE` this models the comparison behaviour of
`list.sort(key=…, reverse=True)`: stable, and raising iff a `None` key meets
any comparison. -/
def insertDescPod (p : PodInfo) : List PodInfo → Except Unit (List PodInfo)
  | [] => .ok [p]
  | q :: qs =>
    match pyLtOptStr q.createdAt p.createdAt with
    | .error e => .error e
    | .ok b =>
      if b then .ok (p :: q :: qs)
      else
        match insertDescPod p qs with
        | .ok r => .ok (q :: r)
        | .error e => .error e

/-- Exception-aware stable sort, newest key first. -/
def sortPodsDescE : List PodInfo → Except Unit (List PodInfo)
  | [] => .ok []
  | p :: ps =>
    match sortPodsDescE ps with
    | .ok r => insertDescPod p r
    | .error e => .error e

/-- How `get_deployment_pods` can fail: an `ApiException` converted to
`HTTPException(500)`, or the `TypeError` the final sort raises (which the
`except ApiException` clause does not catch). -/
inductive PodsErr where
  | httpErr : PodsErr
  | typeErr : PodsErr
deriving Repr, DecidableEq

/-- `get_deployment_pods`: read the deployment's selector, list matching
pods, build their dicts, then sort newest-first. -/
def getDeploymentPods (api : K8sApi) (ns nm : String) : Except PodsErr (List PodInfo) :=
  match api.readDeploymentLabels ns nm with
  | .error _ => .error .httpErr
  | .ok labels =>
    let sel := String.intercalate "," (labels.map (fun kv => kv.1 ++ "=" ++ kv.2))
    match api.listNamespacedPods ns sel with
    | .error _ => .error .httpErr
    | .ok pods =>
      match sortPodsDescE (pods.map mkPodInfo) with
      | .ok sortedPods => .ok sortedPods
      | .error _ => .error .typeErr

/-- Input for the health-rule witness: a participating workload scaled to
zero with no available replicas reported. -/
def wItemC1 : RawDeployment :=
  RawDeployment.mk "web" "default" (some [(gameKey, "foo")]) 0 none none none none

/-- The record the Classifier produces for `wItemC1`. -/
def wRecordC1 : DeploymentStatus :=
  { name := "web", nspace := "default", game := "foo", inst := "unknown",
    component := "unknown", replicas := 0, availableReplicas := some 0,
    unavailableReplicas := some 0, status := "active", conditions := [],
    selectorLabels := [], filesUrl := none }

/-- Whether a raw workload carries a non-empty game annotation. -/
def participates (item : RawDeployment) : Bool :=
  match (item.annots.getD []).lookup gameKey with
  | some g => decide (¬g = "")
  | none => false

/-- Whether a namespace's limit-1 probe succeeds. -/
def probeOk (api : K8sApi) (ns : String) : Bool :=
  match api.listNamespacedDeployments ns (some 1) with
  | .ok _ => true
  | .error _ => false

/-- Whether a namespace's limit-1 probe fails with a non-403 error (the case
the probe loop re-raises). -/
def probeFails (api : K8sApi) (ns : String) : Bool :=
  match api.listNamespacedDeployments ns (some 1) with
  | .ok _ => false
  | .error e => decide (¬e.status = 403)

/-- Counterexample input for the resolver: namespace listing succeeds, but
the single namespace's probe is rejected with a 500. -/
def cexApiC4 : K8sApi :=
  K8sApi.mk (.error (ApiErr.mk 403))
    (fun _ lim =>
      match lim with
      | some _ => .error (ApiErr.mk 500)
      | none => .ok [])
    (.ok ["ns1"]) (fun _ _ => .ok []) (fun _ _ => .ok []) (fun _ _ => .ok [])

/-- Witness input for the resolver: two namespaces, one probe accepted and
one rejected with 403. -/
def wApiC4 : K8sApi :=
  K8sApi.mk (.error (ApiErr.mk 403))
    (fun ns lim =>
      match lim with
      | some _ => if ns = "locked" then .error (ApiErr.mk 403) else .ok []
      | none => .ok [])
    (.ok ["alpha", "locked"]) (fun _ _ => .ok []) (fun _ _ => .ok []) (fun _ _ => .ok [])

/-- A participating workload living in namespace `alpha`, used by the
fallback witness. -/
def wItemC3 : RawDeployment :=
  RawDeployment.mk "srv" "alpha" (some [(gameKey, "foo")]) 2 (some 2) none none none

/-- Witness input for the discovery fallback: cluster-wide listing is denied
with 403, both namespaces probe fine, namespace `alpha` lists one
participating workload and namespace `beta`'s full listing fails. -/
def wApiC3 : K8sApi :=
  K8sApi.mk (.error (ApiErr.mk 403))
    (fun ns lim =>
      match lim with
      | some _ => .ok []
      | none => if ns = "alpha" then .ok [wItemC3] else .error (ApiErr.mk 500))
    (.ok ["alpha", "beta"]) (fun _ _ => .ok []) (fun _ _ => .ok []) (fun _ _ => .ok [])

/-- The raw metrics-query outcome `get_deployments` sees for one record. -/
def metricsRawFor (api : K8sApi) (d : DeploymentStatus) : Except ApiErr (List MetricItem) :=
  api.listPodMetricsRaw d.nspace (selectorFor d)

/-- One record after its enrichment step. -/
def enrichedFor (api : K8sApi) (d : DeploymentStatus) : DeploymentStatus :=
  enrichDeployment d (metricsRawFor api d)

/-- Witness workloads for the enrichment theorem. -/
def wItemC5a : RawDeployment :=
  RawDeployment.mk "a" "n1" (some [(gameKey, "g")]) 1 (some 1) none none none

def wItemC5b : RawDeployment :=
  RawDeployment.mk "b" "n2" (some [(gameKey, "g")]) 1 none none none none

/-- The classified forms of the two witness workloads. -/
def wRecC5a : DeploymentStatus :=
  { name := "a", nspace := "n1", game := "g", inst := "unknown", component := "unknown",
    replicas := 1, availableReplicas := some 1, unavailableReplicas := some 0,
    status := "active", conditions := [], selectorLabels := [], filesUrl := none }

def wRecC5b : DeploymentStatus :=
  { name := "b", nspace := "n2", game := "g", inst := "unknown", component := "unknown",
    replicas := 1, availableReplicas := some 0, unavailableReplicas := some 0,
    status := "failed", conditions := [], selectorLabels := [], filesUrl := none }

/-- Witness input for enrichment: the metrics capability is absent (404) in
namespace `n1`, and namespace `n2` returns a malformed quantity whose parse
failure escapes into the per-record handler. -/
def wApiC5 : K8sApi :=
  K8sApi.mk (.ok [wItemC5a, wItemC5b]) (fun _ _ => .ok []) (.ok [])
    (fun ns _ =>
      if ns = "n1" then .error (ApiErr.mk 404)
      else .ok [MetricItem.mk "p1" [ContainerUsage.mk (some "x") none]])
    (fun _ _ => .ok []) (fun _ _ => .ok [])

/-- The newest-first order on pod dicts, stated on the sort keys (total on
pods that all carry a timestamp). -/
def podRel (a b : PodInfo) : Prop :=
  b.createdAt.getD "" ≤ a.createdAt.getD ""

/-- A pod with no creation timestamp. -/
def wPodA : RawPod :=
  RawPod.mk "pa" "d" (some "Running") none [] none none

/-- A pod with a creation timestamp. -/
def wPodB : RawPod :=
  RawPod.mk "pb" "d" (some "Running") none [] (some "2024-01-01T00:00:00") none

/-- Witness input for the pod-sort theorem: a deployment whose two pods mix a
missing and a present creation timestamp. -/
def wApiC10 : K8sApi :=
  K8sApi.mk (.ok []) (fun _ _ => .ok []) (.ok []) (fun _ _ => .ok [])
    (fun _ _ => .ok [("app", "x")]) (fun _ _ => .ok [wPodA, wPodB])

/-- Dictionary lookup on the association-list model of a Python dict. -/
def lookupDict {β : Type} : List (String × β) → String → Option β
  | [], _ => none
  | (g, a) :: rest, k => if g = k then some a else lookupDict rest k

/-- First-occurrence deduplication, the key order a Python dict ends up
with. -/
def foDedup (xs : List String) : List String :=
  xs.foldl (fun acc x => insertSet x acc) []

/-- The accumulator a grouping dict holds under key `k` after the loop: the
per-key fold over the records whose key is `k`. -/
def accFor {α β : Type} (key : α → String) (upd : α → β → β) (e0 : β) (k : String)
    (l : List α) : β :=
  (l.filter (fun d => decide (key d = k))).foldl (fun a d => upd d a) e0

instance : IsTotal Game (fun g1 g2 => g1.name ≤ g2.name) :=
  ⟨fun a b => le_total a.name b.name⟩

instance : IsTrans Game (fun g1 g2 => g1.name ≤ g2.name) :=
  ⟨fun _ _ _ h1 h2 => le_trans h1 h2⟩

instance : IsTotal GameInstance (fun i1 i2 => i1.name ≤ i2.name) :=
  ⟨fun a b => le_total a.name b.name⟩

instance : IsTrans GameInstance (fun i1 i2 => i1.name ≤ i2.name) :=
  ⟨fun _ _ _ h1 h2 => le_trans h1 h2⟩

instance : IsTotal DeploymentStatus (fun d1 d2 => d1.component ≤ d2.component) :=
  ⟨fun a b => le_total a.component b.component⟩

instance : IsTrans DeploymentStatus (fun d1 d2 => d1.component ≤ d2.component) :=
  ⟨fun _ _ _ h1 h2 => le_trans h1 h2⟩

/-- Two records of the same game whose instance/component pairs are distinct
but whose joined `instance/component` strings coincide. -/
def cexRecA : DeploymentStatus :=
  { name := "d1", nspace := "ns", game := "g", inst := "a/b", component := "c",
    replicas := 1, availableReplicas := some 1, unavailableReplicas := some 0,
    status := "active" }

def cexRecB : DeploymentStatus :=
  { name := "d2", nspace := "ns", game := "g", inst := "a", component := "b/c",
    replicas := 1, availableReplicas := some 1, unavailableReplicas := some 0,
    status := "active" }

theorem pyInt_eq_ofNat (q : ℚ) (n : ℕ) (h : q = n) : pyInt q = n := by
  subst h
  rw [pyInt, if_neg]
  · simp
  · simp [not_lt]

theorem parseCpuEval250m : parseCpuMetrics "250m" = some 250 := by
  simp +decide [parseCpuMetrics, strEndsWith, strDropRight, parseFloatQ, splitAtDot, partVal,
    digitsValGo]

theorem parseCpuEvalOne : parseCpuMetrics "1" = some 1000 := by
  simp +decide [parseCpuMetrics, strEndsWith, strDropRight, parseFloatQ, splitAtDot, partVal,
    digitsValGo]

theorem parseCpuEvalNano : parseCpuMetrics "500000000n" = some 500 := by
  simp +decide [parseCpuMetrics, strEndsWith, strDropRight, parseFloatQ, splitAtDot, partVal,
    digitsValGo]
  norm_num

theorem parseCpuEvalEmpty : parseCpuMetrics "" = some 0 := by rfl

theorem parseMemEval2Gi : parseMemoryMetrics "2Gi" = some (2 * 1024 ^ 3) := by
  simp +decide [parseMemoryMetrics, strEndsWith, strDropRight, parseFloatQ, splitAtDot, partVal,
    digitsValGo]
  rw [pyInt_eq_ofNat _ 2147483648 (by norm_num)]
  norm_num

theorem parseMemEval500M : parseMemoryMetrics "500M" = some (500 * 10 ^ 6) := by
  simp +decide [parseMemoryMetrics, strEndsWith, strDropRight, parseFloatQ, splitAtDot, partVal,
    digitsValGo]
  rw [pyInt_eq_ofNat _ 500000000 (by norm_num)]
  norm_num

theorem parseMemEval1Ki : parseMemoryMetrics "1Ki" = some 1024 := by
  simp +decide [parseMemoryMetrics, strEndsWith, strDropRight, parseFloatQ, splitAtDot, partVal,
    digitsValGo]

theorem parseMemEval3Mi : parseMemoryMetrics "3Mi" = some (3 * 1024 ^ 2) := by
  simp +decide [parseMemoryMetrics, strEndsWith, strDropRight, parseFloatQ, splitAtDot, partVal,
    digitsValGo]
  rw [pyInt_eq_ofNat _ 3145728 (by norm_num)]
  norm_num

theorem parseMemEval7Ti : parseMemoryMetrics "7Ti" = some (7 * 1024 ^ 4) := by
  simp +decide [parseMemoryMetrics, strEndsWith, strDropRight, parseFloatQ, splitAtDot, partVal,
    digitsValGo]
  rw [pyInt_eq_ofNat _ 7696581394432 (by norm_num)]
  norm_num

theorem parseMemEval5K : parseMemoryMetrics "5K" = some (5 * 10 ^ 3) := by
  simp +decide [parseMemoryMetrics, strEndsWith, strDropRight, parseFloatQ, splitAtDot, partVal,
    digitsValGo]
  rw [pyInt_eq_ofNat _ 5000 (by norm_num)]
  norm_num

theorem parseMemEval2G : parseMemoryMetrics "2G" = some (2 * 10 ^ 9) := by
  simp +decide [parseMemoryMetrics, strEndsWith, strDropRight, parseFloatQ, splitAtDot, partVal,
    digitsValGo]
  rw [pyInt_eq_ofNat _ 2000000000 (by norm_num)]
  norm_num

theorem parseMemEval4T : parseMemoryMetrics "4T" = some (4 * 10 ^ 12) := by
  simp +decide [parseMemoryMetrics, strEndsWith, strDropRight, parseFloatQ, splitAtDot, partVal,
    digitsValGo]
  rw [pyInt_eq_ofNat _ 4000000000000 (by norm_num)]
  norm_num

theorem parseMemEvalRaw : parseMemoryMetrics "12345" = some 12345 := by
  simp +decide [parseMemoryMetrics, strEndsWith, strDropRight, parseIntStr, digitsValGo]

theorem parseMemEvalEmpty : parseMemoryMetrics "" = some 0 := by rfl

/-- C8: the Unit Parser's CPU conversions on the spec's inputs (millicores
as-is, cores × 1000, nanocores ÷ 10⁶, empty → 0), and its memory
conversions: binary suffixes with powers of 1024, decimal suffixes with
powers of 1000, a suffix-less string as a raw byte integer, and empty → 0 —
in particular parseMemory("2Gi") = 2 × 1024³ and parseMemory("500M") =
500 × 10⁶. -/
theorem unitParserConversions :
    parseCpuMetrics "250m" = some 250 ∧
    parseCpuMetrics "1" = some 1000 ∧
    parseCpuMetrics "500000000n" = some 500 ∧
    parseCpuMetrics "" = some 0 ∧
    parseMemoryMetrics "2Gi" = some (2 * 1024 ^ 3) ∧
    parseMemoryMetrics "500M" = some (500 * 10 ^ 6) ∧
    parseMemoryMetrics "1Ki" = some 1024 ∧
    parseMemoryMetrics "3Mi" = some (3 * 1024 ^ 2) ∧
    parseMemoryMetrics "7Ti" = some (7 * 1024 ^ 4) ∧
    parseMemoryMetrics "5K" = some (5 * 10 ^ 3) ∧
    parseMemoryMetrics "2G" = some (2 * 10 ^ 9) ∧
    parseMemoryMetrics "4T" = some (4 * 10 ^ 12) ∧
    parseMemoryMetrics "12345" = some 12345 ∧
    parseMemoryMetrics "" = some 0 :=
  ⟨parseCpuEval250m, parseCpuEvalOne, parseCpuEvalNano, parseCpuEvalEmpty, parseMemEval2Gi,
    parseMemEval500M, parseMemEval1Ki, parseMemEval3Mi, parseMemEval7Ti, parseMemEval5K,
    parseMemEval2G, parseMemEval4T, parseMemEvalRaw, parseMemEvalEmpty⟩

/-- C1: for every raw workload the Classifier accepts, the derived status is
"active" iff the desired replica count is 0 or the available count (0 when
unset) is positive, and "failed" otherwise; in particular desired = 0 always
gives "active", and desired > 0 with available 0 or unset always gives
"failed". -/
theorem healthDerivationRule (item : RawDeployment) (d : DeploymentStatus)
    (h : processDeploymentItem item = some d) :
    (d.status = "active" ↔ item.specReplicas = 0 ∨ 0 < item.availableReplicas.getD 0) ∧
    (d.status = "failed" ↔ ¬(item.specReplicas = 0 ∨ 0 < item.availableReplicas.getD 0)) ∧
    (item.specReplicas = 0 → d.status = "active") ∧
    (0 < item.specReplicas → item.availableReplicas.getD 0 = 0 → d.status = "failed") := by
  have hstat : d.status =
      (if item.specReplicas = 0 ∨ 0 < item.availableReplicas.getD 0 then "active"
       else "failed") := by
    rw [processDeploymentItem] at h
    cases hg : (item.annots.getD []).lookup gameKey with
    | none =>
      rw [hg] at h
      cases h
    | some g =>
      rw [hg] at h
      simp only [] at h
      by_cases hge : g = ""
      · rw [if_pos hge] at h
        cases h
      · rw [if_neg hge] at h
        injection h with h2
        rw [← h2]
        cases ha : item.availableReplicas with
        | none => simp [ha]
        | some a => simp [ha]
  constructor
  · constructor
    · intro hs
      by_contra hc
      rw [hstat, if_neg hc] at hs
      exact absurd hs (by decide)
    · intro hc
      rw [hstat, if_pos hc]
  constructor
  · constructor
    · intro hs hc
      rw [hstat, if_pos hc] at hs
      exact absurd hs (by decide)
    · intro hc
      rw [hstat, if_neg hc]
  constructor
  · intro hz
    rw [hstat, if_pos (Or.inl hz)]
  · intro hpos hav
    rw [hstat, if_neg]
    intro hc
    rcases hc with hc | hc
    · omega
    · omega

theorem healthDerivationRule_witness : wRecordC1.status = "active" :=
  (healthDerivationRule wItemC1 wRecordC1 (by rfl)).2.2.1 rfl

/-- C2: the Classifier produces a record iff the workload's annotation map
(empty when absent) holds a non-empty value under the game key, and the
classified output of any raw listing is unchanged by first discarding the
non-participating workloads — so they are excluded from the fleet view and
from every set derived from it (game summaries, instance listings). -/
theorem gameAnnotationGate :
    (∀ item : RawDeployment,
      (processDeploymentItem item).isSome ↔ participates item = true) ∧
    (∀ items : List RawDeployment,
      items.filterMap processDeploymentItem
        = (items.filter participates).filterMap processDeploymentItem) := by
  have hiff : ∀ item : RawDeployment,
      (processDeploymentItem item).isSome ↔ participates item = true := by
    intro item
    rw [processDeploymentItem, participates]
    cases hg : (item.annots.getD []).lookup gameKey with
    | none => simp
    | some g =>
      by_cases hge : g = ""
      · simp [hge]
      · simp [hge]
  refine ⟨hiff, ?_⟩
  intro items
  induction items with
  | nil => rfl
  | cons it its ih =>
    by_cases hp : participates it = true
    · rw [List.filter_cons_of_pos hp]
      rw [List.filterMap_cons, List.filterMap_cons]
      cases hpr : processDeploymentItem it with
      | none => rw [ih]
      | some d => rw [ih]
    · have hnone : processDeploymentItem it = none := by
        cases hpr : processDeploymentItem it with
        | none => rfl
        | some d2 => exact absurd ((hiff it).mp (by rw [hpr]; rfl)) hp
      rw [List.filter_cons_of_neg (by simp [hp])]
      rw [List.filterMap_cons, hnone, ih]

theorem roundHalfEven_natCast (n : ℕ) : roundHalfEven (n : ℚ) = n := by
  rw [roundHalfEven]
  simp only [Int.floor_natCast]
  rw [if_pos]
  norm_num

theorem fmt2_natCast (n : ℕ) : fmt2 (n : ℚ) = toString n ++ ".00" := by
  have h1 : (n : ℚ) * 100 = ((100 * n : ℕ) : ℚ) := by push_cast; ring
  rw [fmt2, h1, roundHalfEven_natCast]
  have h2 : ((100 * n : ℕ) : ℤ).toNat = 100 * n := by omega
  rw [h2]
  have h3 : 100 * n / 100 = n := by omega
  have h4 : 100 * n % 100 = 0 := by omega
  rw [h3, h4, if_pos (by norm_num)]
  have h5 : ("." : String) ++ ("0" ++ toString (0 : ℕ)) = ".00" := by rfl
  rw [String.append_assoc, h5]

theorem formatMemoryEval1Ki : formatMemory 1024 = "1.00Ki" := by
  rw [formatMemory, if_neg (by norm_num), if_neg (by norm_num), if_pos (by norm_num)]
  have h : ((1024 : ℤ) : ℚ) / 2 ^ 10 = ((1 : ℕ) : ℚ) := by norm_num
  rw [h, fmt2_natCast]
  rfl

theorem formatMemoryEval1Mi : formatMemory 1048576 = "1.00Mi" := by
  rw [formatMemory, if_neg (by norm_num), if_pos (by norm_num)]
  have h : ((1048576 : ℤ) : ℚ) / 2 ^ 20 = ((1 : ℕ) : ℚ) := by norm_num
  rw [h, fmt2_natCast]
  rfl

theorem formatMemoryEval1Gi : formatMemory 1073741824 = "1.00Gi" := by
  rw [formatMemory, if_pos (by norm_num)]
  have h : ((1073741824 : ℤ) : ℚ) / 2 ^ 30 = ((1 : ℕ) : ℚ) := by norm_num
  rw [h, fmt2_natCast]
  rfl

theorem formatMemoryEvalRawB : formatMemory 512 = "512B" := by
  rw [formatMemory, if_neg (by norm_num), if_neg (by norm_num), if_neg (by norm_num)]
  rfl

/-- C9: `formatMemory ∘ parseMemory` round-trips the representative inputs
"1Ki", "1Mi", "1Gi" to the equivalent two-decimal display strings, because
`formatMemory` renders the largest binary unit whose value is at least 1
with two-decimal precision, and otherwise (e.g. 512 bytes, below every
binary unit) the raw byte count suffixed "B". -/
theorem formatMemoryRoundTrip :
    (parseMemoryMetrics "1Ki").map formatMemory = some "1.00Ki" ∧
    (parseMemoryMetrics "1Mi").map formatMemory = some "1.00Mi" ∧
    (parseMemoryMetrics "1Gi").map formatMemory = some "1.00Gi" ∧
    formatMemory 512 = "512B" := by
  refine ⟨?_, ?_, ?_, formatMemoryEvalRawB⟩
  · rw [parseMemEval1Ki]
    exact congrArg some formatMemoryEval1Ki
  · have h : parseMemoryMetrics "1Mi" = some 1048576 := by
      simp +decide [parseMemoryMetrics, strEndsWith, strDropRight, parseFloatQ, splitAtDot,
        partVal, digitsValGo]
    rw [h]
    exact congrArg some formatMemoryEval1Mi
  · have h : parseMemoryMetrics "1Gi" = some 1073741824 := by
      simp +decide [parseMemoryMetrics, strEndsWith, strDropRight, parseFloatQ, splitAtDot,
        partVal, digitsValGo]
    rw [h]
    exact congrArg some formatMemoryEval1Gi

theorem probeLoop_ok (api : K8sApi) (nss : List String)
    (h : ∀ ns ∈ nss, probeFails api ns = false) :
    probeLoop api nss = .ok (nss.filter (probeOk api)) := by
  induction nss with
  | nil => rfl
  | cons ns rest ih =>
    have hh := h ns (List.mem_cons_self ns rest)
    have ht : ∀ x ∈ rest, probeFails api x = false :=
      fun x hx => h x (List.mem_cons_of_mem ns hx)
    cases hp : api.listNamespacedDeployments ns (some 1) with
    | ok v =>
      have hfilter : probeOk api ns = true := by rw [probeOk, hp]
      simp only [probeLoop, hp, ih ht, List.filter_cons_of_pos hfilter]
    | error e =>
      have h403 : e.status = 403 := by
        rw [probeFails, hp] at hh
        simpa using hh
      have hfilter : ¬probeOk api ns = true := by rw [probeOk, hp]; simp
      simp only [probeLoop, hp, if_pos h403, ih ht,
        List.filter_cons_of_neg hfilter]

theorem probeLoop_err (api : K8sApi) (nss : List String)
    (h : ∃ ns ∈ nss, probeFails api ns = true) :
    ∃ e, probeLoop api nss = .error e := by
  induction nss with
  | nil => simp at h
  | cons ns rest ih =>
    by_cases hf : probeFails api ns = true
    · rw [probeFails] at hf
      cases hp : api.listNamespacedDeployments ns (some 1) with
      | ok v => rw [hp] at hf; simp at hf
      | error e =>
        rw [hp] at hf
        have hne : ¬e.status = 403 := by simpa using hf
        refine ⟨e, ?_⟩
        simp only [probeLoop, hp, if_neg hne]
    · have h2 : ∃ x ∈ rest, probeFails api x = true := by
        rcases h with ⟨x, hx, hxf⟩
        rcases List.mem_cons.mp hx with rfl | hx2
        · exact absurd hxf hf
        · exact ⟨x, hx2, hxf⟩
      rcases ih h2 with ⟨e2, he2⟩
      cases hp : api.listNamespacedDeployments ns (some 1) with
      | ok v =>
        refine ⟨e2, ?_⟩
        simp only [probeLoop, hp, he2]
      | error e =>
        have h403 : e.status = 403 := by
          rw [probeFails, hp] at hf
          simpa using hf
        refine ⟨e2, ?_⟩
        simp only [probeLoop, hp, if_pos h403, he2]

/-- C4 counterexample: with a successful namespace listing and a single
namespace whose probe fails with status 500 (not an authorization error),
the resolver does not let the error out to its caller — the re-raise is
caught by the resolver's own outer handler and the call returns the default
singleton, the very fallback the claim reserves for a failing namespace
listing. -/
theorem resolverProbeCounterexample :
    cexApiC4.listNamespaces = .ok ["ns1"] ∧
    cexApiC4.listNamespacedDeployments "ns1" (some 1) = .error (ApiErr.mk 500) ∧
    ¬(500 = 403) ∧
    getAccessibleNamespaces cexApiC4 = ["default"] :=
  ⟨rfl, rfl, by decide, rfl⟩

/-- C4 (amended): the resolver probes each listed namespace with a limit-1
listing; 403-rejected namespaces are silently excluded; a probe failing with
any other error makes the resolver return the single-element default set —
the same fallback as when the namespace listing itself fails — rather than
propagating the error. -/
theorem resolverAccessibleNamespaces (api : K8sApi) :
    (∀ e, api.listNamespaces = .error e → getAccessibleNamespaces api = ["default"]) ∧
    (∀ nss, api.listNamespaces = .ok nss →
      ((∀ ns ∈ nss, probeFails api ns = false) →
        getAccessibleNamespaces api = nss.filter (probeOk api)) ∧
      ((∃ ns ∈ nss, probeFails api ns = true) →
        getAccessibleNamespaces api = ["default"])) := by
  constructor
  · intro e he
    simp only [getAccessibleNamespaces, he]
  · intro nss hn
    constructor
    · intro hall
      simp only [getAccessibleNamespaces, hn, probeLoop_ok api nss hall]
    · intro hex
      rcases probeLoop_err api nss hex with ⟨e, he⟩
      simp only [getAccessibleNamespaces, hn, he]

theorem resolverAccessibleNamespaces_witness :
    getAccessibleNamespaces wApiC4 = List.filter (probeOk wApiC4) ["alpha", "locked"] :=
  ((resolverAccessibleNamespaces wApiC4).2 ["alpha", "locked"] rfl).1 (by decide)

/-- C3: when the cluster-wide listing fails with 403 the engine resolves the
accessible namespaces and returns exactly the concatenation of the
per-namespace classification results (a namespace whose own listing fails
contributing the empty list, exactly as the namespace-scoped path would);
when it fails with any other status the whole request fails. -/
theorem discoveryAuthFallback (api : K8sApi) (e : ApiErr)
    (h : api.listAllDeployments = .error e) :
    (e.status = 403 →
      fetchDeployments api none =
        .ok ((getAccessibleNamespaces api).flatMap
          (fun ns =>
            match fetchDeployments api (some ns) with
            | .ok l => l
            | .error _ => []))) ∧
    (¬e.status = 403 → fetchDeployments api none = .error ()) := by
  constructor
  · intro h403
    simp only [fetchDeployments, h, h403, if_pos]
    congr 1
    congr 1
    funext ns
    cases hp : api.listNamespacedDeployments ns none with
    | ok items => simp only [hp]
    | error e2 => simp only [hp]
  · intro hn403
    simp only [fetchDeployments, h]
    rw [if_neg hn403]

theorem discoveryAuthFallback_witness :
    fetchDeployments wApiC3 none =
      .ok ((getAccessibleNamespaces wApiC3).flatMap
        (fun ns =>
          match fetchDeployments wApiC3 (some ns) with
          | .ok l => l
          | .error _ => [])) :=
  (discoveryAuthFallback wApiC3 (ApiErr.mk 403) rfl).1 rfl

theorem enrichCases (d : DeploymentStatus) (raw : Except ApiErr (List MetricItem)) :
    (enrichDeployment d raw).cpuUsage.isSome = true ∧
    (enrichDeployment d raw).memoryUsage.isSome = true ∧
    (getPodMetrics raw = .ok [] →
      (enrichDeployment d raw).cpuUsage = some "N/A" ∧
      (enrichDeployment d raw).memoryUsage = some "N/A") ∧
    (getPodMetrics raw = .error () →
      (enrichDeployment d raw).cpuUsage = some "Error" ∧
      (enrichDeployment d raw).memoryUsage = some "Error") ∧
    (∀ m ms, getPodMetrics raw = .ok (m :: ms) →
      (enrichDeployment d raw).cpuUsage
          = some (formatCpu (((m :: ms).map (fun p => p.2.cpuRaw)).sum)) ∧
      (enrichDeployment d raw).memoryUsage
          = some (formatMemory (((m :: ms).map (fun p => p.2.memoryRaw)).sum))) := by
  cases hm : getPodMetrics raw with
  | error u =>
    refine ⟨?_, ?_, ?_, ?_, ?_⟩
    · simp [enrichDeployment, hm]
    · simp [enrichDeployment, hm]
    · intro hc; simp at hc
    · intro _; constructor <;> simp [enrichDeployment, hm]
    · intro m ms hc; simp at hc
  | ok ms =>
    cases ms with
    | nil =>
      refine ⟨?_, ?_, ?_, ?_, ?_⟩
      · simp [enrichDeployment, hm]
      · simp [enrichDeployment, hm]
      · intro _; constructor <;> simp [enrichDeployment, hm]
      · intro hc; simp at hc
      · intro m ms2 hc; simp at hc
    | cons m ms2 =>
      refine ⟨?_, ?_, ?_, ?_, ?_⟩
      · simp [enrichDeployment, hm]
      · simp [enrichDeployment, hm]
      · intro hc; simp at hc
      · intro hc; simp at hc
      · intro m3 ms3 hc
        injection hc with hl
        injection hl with h1 h2
        subst h1
        subst h2
        constructor <;> simp [enrichDeployment, hm]

/-- C5: after `get_deployments` returns, every record's CPU/memory usage is
set: to formatted totals summed over all matched pods when the gateway
returned a non-empty mapping, to "N/A" when it returned the empty mapping —
which is what any `ApiException`, including the 404 of an absent metrics
capability, is turned into, never a thrown error — and to "Error" when the
record's own enrichment throws; enrichment is per-record, so the batch is
the full fetched list regardless of individual failures. -/
theorem metricsEnrichmentTotal (api : K8sApi) (nsFilter : Option String)
    (ds : List DeploymentStatus) (h : fetchDeployments api nsFilter = .ok ds) :
    getDeployments api nsFilter = .ok (ds.map (enrichedFor api)) ∧
    ∀ d ∈ ds,
      (enrichedFor api d).cpuUsage.isSome = true ∧
      (enrichedFor api d).memoryUsage.isSome = true ∧
      (∀ e, metricsRawFor api d = .error e →
        (enrichedFor api d).cpuUsage = some "N/A" ∧
        (enrichedFor api d).memoryUsage = some "N/A") ∧
      (getPodMetrics (metricsRawFor api d) = .ok [] →
        (enrichedFor api d).cpuUsage = some "N/A" ∧
        (enrichedFor api d).memoryUsage = some "N/A") ∧
      (getPodMetrics (metricsRawFor api d) = .error () →
        (enrichedFor api d).cpuUsage = some "Error" ∧
        (enrichedFor api d).memoryUsage = some "Error") ∧
      (∀ m ms, getPodMetrics (metricsRawFor api d) = .ok (m :: ms) →
        (enrichedFor api d).cpuUsage
            = some (formatCpu (((m :: ms).map (fun p => p.2.cpuRaw)).sum)) ∧
        (enrichedFor api d).memoryUsage
            = some (formatMemory (((m :: ms).map (fun p => p.2.memoryRaw)).sum))) := by
  constructor
  · simp only [getDeployments, h]
    rfl
  · intro d _
    have hc := enrichCases d (metricsRawFor api d)
    refine ⟨hc.1, hc.2.1, ?_, hc.2.2.1, hc.2.2.2.1, hc.2.2.2.2⟩
    intro e he
    apply hc.2.2.1
    rw [he]
    rfl

theorem metricsEnrichmentTotal_witness :
    getDeployments wApiC5 none = .ok ([wRecC5a, wRecC5b].map (enrichedFor wApiC5)) :=
  (metricsEnrichmentTotal wApiC5 none [wRecC5a, wRecC5b] (by rfl)).1

theorem twoLeLength {α : Type} (l : List α) (a b : α) (ha : a ∈ l) (hb : b ∈ l)
    (hne : a ≠ b) : 2 ≤ l.length := by
  cases l with
  | nil => simp at ha
  | cons x xs =>
    cases xs with
    | nil =>
      simp at ha hb
      rw [ha, hb] at hne
      exact absurd rfl hne
    | cons y ys => simp [List.length]

theorem sortPodsDescE_cons (p : PodInfo) (ps : List PodInfo) :
    sortPodsDescE (p :: ps) =
      match sortPodsDescE ps with
      | .ok r => insertDescPod p r
      | .error e => .error e := rfl

theorem insertDescPod_perm : ∀ (l : List PodInfo) (p : PodInfo) (r : List PodInfo),
    insertDescPod p l = .ok r → r.Perm (p :: l) := by
  intro l
  induction l with
  | nil =>
    intro p r h
    injection h with h2
    rw [← h2]
  | cons q qs ih =>
    intro p r h
    simp only [insertDescPod] at h
    cases hcmp : pyLtOptStr q.createdAt p.createdAt with
    | error e => rw [hcmp] at h; simp at h
    | ok b =>
      rw [hcmp] at h
      simp only [] at h
      by_cases hb : b = true
      · rw [if_pos hb] at h
        injection h with h2
        rw [← h2]
      · rw [if_neg hb] at h
        cases hins : insertDescPod p qs with
        | error e => rw [hins] at h; simp at h
        | ok r2 =>
          rw [hins] at h
          injection h with h2
          rw [← h2]
          exact ((ih p r2 hins).cons q).trans (List.Perm.swap p q qs)

theorem insertDescPod_ok (p : PodInfo) (l : List PodInfo)
    (hp : p.createdAt.isSome = true) (hl : ∀ q ∈ l, q.createdAt.isSome = true) :
    ∃ r, insertDescPod p l = .ok r := by
  induction l with
  | nil => exact ⟨[p], rfl⟩
  | cons q qs ih =>
    rcases ih (fun x hx => hl x (List.mem_cons_of_mem q hx)) with ⟨r2, hr2⟩
    rcases Option.isSome_iff_exists.mp hp with ⟨sp, hsp⟩
    rcases Option.isSome_iff_exists.mp (hl q (List.mem_cons_self q qs)) with ⟨sq, hsq⟩
    have hcmp : pyLtOptStr q.createdAt p.createdAt = .ok (decide (sq < sp)) := by
      rw [hsq, hsp]
      rfl
    cases hd : decide (sq < sp) with
    | true => exact ⟨p :: q :: qs, by simp only [insertDescPod, hcmp, hd, if_pos]⟩
    | false =>
      refine ⟨q :: r2, ?_⟩
      simp only [insertDescPod, hcmp, hd, Bool.false_eq_true, if_false, hr2]

theorem insertDescPod_sorted : ∀ (l : List PodInfo) (p : PodInfo) (r : List PodInfo),
    (∀ q ∈ p :: l, q.createdAt.isSome = true) →
    l.Sorted podRel → insertDescPod p l = .ok r → r.Sorted podRel := by
  intro l
  induction l with
  | nil =>
    intro p r _ _ h
    injection h with h2
    rw [← h2]
    simp
  | cons q qs ih =>
    intro p r hsome hs h
    rcases Option.isSome_iff_exists.mp (hsome p (List.mem_cons_self p _)) with ⟨sp, hsp⟩
    rcases Option.isSome_iff_exists.mp
      (hsome q (List.mem_cons_of_mem p (List.mem_cons_self q qs))) with ⟨sq, hsq⟩
    have hcmp : pyLtOptStr q.createdAt p.createdAt = .ok (decide (sq < sp)) := by
      rw [hsq, hsp]
      rfl
    simp only [insertDescPod, hcmp] at h
    rw [List.sorted_cons] at hs
    by_cases hlt : sq < sp
    · rw [if_pos (by simpa using hlt)] at h
      injection h with h2
      rw [← h2]
      rw [List.sorted_cons]
      refine ⟨?_, List.sorted_cons.mpr hs⟩
      intro x hx
      rcases List.mem_cons.mp hx with rfl | hx2
      · rw [podRel, hsq, hsp]
        simpa using le_of_lt hlt
      · have h1 : podRel q x := hs.1 x hx2
        rw [podRel] at h1 ⊢
        rw [hsp]
        rw [hsq] at h1
        simp only [Option.getD_some] at h1 ⊢
        exact le_trans h1 (le_of_lt hlt)
    · rw [if_neg (by simpa using hlt)] at h
      cases hins : insertDescPod p qs with
      | error e => rw [hins] at h; simp at h
      | ok r2 =>
        rw [hins] at h
        injection h with h2
        rw [← h2]
        rw [List.sorted_cons]
        constructor
        · intro x hx
          have hx2 : x ∈ p :: qs := (insertDescPod_perm qs p r2 hins).mem_iff.mp hx
          rcases List.mem_cons.mp hx2 with rfl | hx3
          · rw [podRel, hsq, hsp]
            simpa using le_of_not_lt hlt
          · exact hs.1 x hx3
        · exact ih p r2
            (fun x hx => hsome x (by
              rcases List.mem_cons.mp hx with rfl | hx2
              · exact List.mem_cons_self x _
              · exact List.mem_cons_of_mem p (List.mem_cons_of_mem q hx2)))
            hs.2 hins

theorem sortPods_ok (l : List PodInfo) (hl : ∀ q ∈ l, q.createdAt.isSome = true) :
    ∃ r, sortPodsDescE l = .ok r ∧ r.Perm l ∧ r.Sorted podRel := by
  induction l with
  | nil => exact ⟨[], rfl, List.Perm.refl _, by simp⟩
  | cons p ps ih =>
    rcases ih (fun x hx => hl x (List.mem_cons_of_mem p hx)) with ⟨r2, hr2, hperm, hsort⟩
    have hr2all : ∀ q ∈ r2, q.createdAt.isSome = true :=
      fun q hq => hl q (List.mem_cons_of_mem p (hperm.mem_iff.mp hq))
    rcases insertDescPod_ok p r2 (hl p (List.mem_cons_self p ps)) hr2all with ⟨r3, hr3⟩
    refine ⟨r3, ?_, ?_, ?_⟩
    · simp only [sortPodsDescE, hr2, hr3]
    · exact (insertDescPod_perm r2 p r3 hr3).trans (hperm.cons p)
    · exact insertDescPod_sorted r2 p r3
        (fun q hq => by
          rcases List.mem_cons.mp hq with rfl | hq2
          · exact hl q (List.mem_cons_self q ps)
          · exact hr2all q hq2)
        hsort hr3

theorem insertDescPod_err_none (p : PodInfo) (l : List PodInfo)
    (hp : p.createdAt = none) (hl : l ≠ []) : insertDescPod p l = .error () := by
  cases l with
  | nil => exact absurd rfl hl
  | cons q qs =>
    have hcmp : pyLtOptStr q.createdAt p.createdAt = .error () := by
      rw [hp]
      cases q.createdAt <;> rfl
    simp only [insertDescPod, hcmp]

theorem sortPods_err : ∀ l : List PodInfo,
    (∃ p ∈ l, p.createdAt = none) → 2 ≤ l.length → sortPodsDescE l = .error () := by
  intro l
  induction l with
  | nil => intro _ h2; simp at h2
  | cons p ps ih =>
    intro h1 h2
    by_cases hnone : ∃ x ∈ ps, x.createdAt = none
    · cases ps with
      | nil => simp at hnone
      | cons q qs =>
        cases qs with
        | nil =>
          have hq : q.createdAt = none := by
            rcases hnone with ⟨x, hx, hxn⟩
            simp at hx
            rw [hx] at hxn
            exact hxn
          have hcmp : pyLtOptStr q.createdAt p.createdAt = .error () := by
            rw [hq]
            cases p.createdAt <;> rfl
          simp only [sortPodsDescE, insertDescPod, hcmp]
        | cons q2 qs2 =>
          have herr : sortPodsDescE (q :: q2 :: qs2) = .error () := by
            apply ih
            · exact hnone
            · simp [List.length]
          rw [sortPodsDescE_cons, herr]
    · have hp : p.createdAt = none := by
        rcases h1 with ⟨x, hx, hxn⟩
        rcases List.mem_cons.mp hx with rfl | hx2
        · exact hxn
        · exact absurd ⟨x, hx2, hxn⟩ hnone
      have hall : ∀ q ∈ ps, q.createdAt.isSome = true := by
        intro q hq
        cases hqc : q.createdAt with
        | none => exact absurd ⟨q, hq, hqc⟩ hnone
        | some v => rfl
      rcases sortPods_ok ps hall with ⟨r, hr, hperm, _⟩
      have hrne : r ≠ [] := by
        intro h0
        rw [h0] at hperm
        have hps0 : ps = [] := hperm.symm.eq_nil
        rw [hps0] at h2
        simp at h2
      simp only [sortPodsDescE, hr, insertDescPod_err_none p r hp hrne]

/-- C10: in the pod listing, if among the matched pods at least one lacks a
creation timestamp and at least one carries a string timestamp, the final
newest-first sort compares `None` against a string and raises, failing the
whole listing even though every pod was retrieved; under the precondition
that every pod carries a timestamp the sort succeeds, returning a
newest-first ordering of all the pod dicts. -/
theorem podSortNoneRaises (api : K8sApi) (ns nm : String)
    (labels : List (String × String)) (pods : List RawPod)
    (h1 : api.readDeploymentLabels ns nm = .ok labels)
    (h2 : api.listNamespacedPods ns
      (String.intercalate "," (labels.map (fun kv => kv.1 ++ "=" ++ kv.2))) = .ok pods) :
    ((∃ p ∈ pods, p.creationTimestamp = none) →
      (∃ q ∈ pods, q.creationTimestamp.isSome = true) →
      getDeploymentPods api ns nm = .error .typeErr) ∧
    ((∀ p ∈ pods, p.creationTimestamp.isSome = true) →
      ∃ l2, getDeploymentPods api ns nm = .ok l2 ∧ l2.Perm (pods.map mkPodInfo) ∧
        l2.Sorted podRel) := by
  constructor
  · intro hnone hsome
    rcases hnone with ⟨p, hp, hpn⟩
    rcases hsome with ⟨q, hq, hqs⟩
    have hne : p ≠ q := by
      intro he
      rw [he] at hpn
      rw [hpn] at hqs
      exact absurd hqs (by simp)
    have hlen : 2 ≤ (pods.map mkPodInfo).length := by
      rw [List.length_map]
      exact twoLeLength pods p q hp hq hne
    have hmem : ∃ x ∈ pods.map mkPodInfo, x.createdAt = none :=
      ⟨mkPodInfo p, List.mem_map_of_mem mkPodInfo hp, hpn⟩
    have herr := sortPods_err (pods.map mkPodInfo) hmem hlen
    simp only [getDeploymentPods, h1, h2, herr]
  · intro hall
    have hall2 : ∀ x ∈ pods.map mkPodInfo, x.createdAt.isSome = true := by
      intro x hx
      rcases List.mem_map.mp hx with ⟨p, hp, hpx⟩
      rw [← hpx]
      exact hall p hp
    rcases sortPods_ok (pods.map mkPodInfo) hall2 with ⟨r, hr, hperm, hsort⟩
    refine ⟨r, ?_, hperm, hsort⟩
    simp only [getDeploymentPods, h1, h2, hr]

theorem podSortNoneRaises_witness :
    getDeploymentPods wApiC10 "d" "x" = .error .typeErr :=
  (podSortNoneRaises wApiC10 "d" "x" [("app", "x")] [wPodA, wPodB] rfl rfl).1
    ⟨wPodA, List.mem_cons_self wPodA [wPodB], rfl⟩
    ⟨wPodB, List.mem_cons_of_mem wPodA (List.mem_cons_self wPodB []), rfl⟩

theorem dictFold_concat {α β : Type} (key : α → String) (upd : α → β → β) (e0 : β)
    (l : List α) (d : α) :
    dictFold key upd e0 (l ++ [d]) = updDict key upd e0 (dictFold key upd e0 l) d := by
  rw [dictFold, dictFold, List.foldl_append]
  rfl

theorem lookupDict_updDict {α β : Type} (key : α → String) (upd : α → β → β) (e0 : β)
    (gs : List (String × β)) (d : α) (k : String) :
    lookupDict (updDict key upd e0 gs d) k =
      if key d = k then some (upd d ((lookupDict gs k).getD e0)) else lookupDict gs k := by
  induction gs with
  | nil =>
    by_cases hk : key d = k <;> simp [updDict, lookupDict, hk]
  | cons p rest ih =>
    obtain ⟨g, a⟩ := p
    by_cases hg : g = key d
    · subst hg
      by_cases hk : key d = k
      · subst hk
        simp [updDict, lookupDict]
      · simp [updDict, lookupDict, hk]
    · by_cases hk : g = k
      · subst hk
        have hdk : ¬key d = g := fun h => hg h.symm
        simp [updDict, lookupDict, hg, hdk]
      · simp [updDict, lookupDict, hg, hk, ih]

theorem accFor_concat {α β : Type} (key : α → String) (upd : α → β → β) (e0 : β)
    (k : String) (l : List α) (d : α) :
    accFor key upd e0 k (l ++ [d]) =
      if key d = k then upd d (accFor key upd e0 k l) else accFor key upd e0 k l := by
  rw [accFor, accFor, List.filter_append]
  by_cases h : key d = k
  · rw [if_pos h]
    simp [h, List.foldl_append]
  · rw [if_neg h]
    simp [h]

theorem accFor_of_not_mem {α β : Type} (key : α → String) (upd : α → β → β) (e0 : β)
    (k : String) (l : List α) (h : ¬k ∈ l.map key) :
    accFor key upd e0 k l = e0 := by
  rw [accFor]
  have hnil : l.filter (fun d => decide (key d = k)) = [] := by
    rw [List.filter_eq_nil_iff]
    intro a ha
    simp only [decide_eq_true_eq]
    intro he
    exact h (he ▸ List.mem_map_of_mem key ha)
  rw [hnil]
  rfl

theorem lookupDict_dictFold {α β : Type} (key : α → String) (upd : α → β → β) (e0 : β)
    (l : List α) (k : String) :
    lookupDict (dictFold key upd e0 l) k =
      if k ∈ l.map key then some (accFor key upd e0 k l) else none := by
  induction l using List.reverseRecOn with
  | nil => simp [dictFold, lookupDict]
  | append_singleton l d ih =>
    rw [dictFold_concat, lookupDict_updDict, ih]
    have hsplit : k ∈ (l ++ [d]).map key ↔ k ∈ l.map key ∨ k = key d := by
      simp [List.map_append]
    by_cases hk : key d = k
    · rw [if_pos hk]
      rw [if_pos (hsplit.mpr (Or.inr hk.symm))]
      rw [accFor_concat, if_pos hk]
      by_cases hm : k ∈ l.map key
      · rw [if_pos hm]
        rfl
      · rw [if_neg hm, accFor_of_not_mem key upd e0 k l hm]
        rfl
    · rw [if_neg hk]
      rw [accFor_concat, if_neg hk]
      by_cases hm : k ∈ l.map key
      · rw [if_pos hm, if_pos (hsplit.mpr (Or.inl hm))]
      · rw [if_neg hm, if_neg (fun hc => by
          rcases hsplit.mp hc with h2 | h2
          · exact hm h2
          · exact hk h2.symm)]

theorem updDict_keys {α β : Type} (key : α → String) (upd : α → β → β) (e0 : β)
    (gs : List (String × β)) (d : α) :
    (updDict key upd e0 gs d).map Prod.fst = insertSet (key d) (gs.map Prod.fst) := by
  induction gs with
  | nil => simp [updDict, insertSet]
  | cons p rest ih =>
    obtain ⟨g, a⟩ := p
    by_cases hg : g = key d
    · subst hg
      simp [updDict, insertSet]
    · have hg2 : ¬g = key d := hg
      simp only [updDict, if_neg hg2, List.map_cons, ih]
      rw [insertSet, insertSet]
      by_cases hmem : key d ∈ rest.map Prod.fst
      · rw [if_pos hmem, if_pos (by simp [hmem])]
      · rw [if_neg hmem, if_neg (by
          simp only [List.mem_cons]
          rintro (h | h)
          · exact hg h.symm
          · exact hmem h)]
        simp

theorem dictFold_keys {α β : Type} (key : α → String) (upd : α → β → β) (e0 : β)
    (l : List α) :
    (dictFold key upd e0 l).map Prod.fst = foDedup (l.map key) := by
  induction l using List.reverseRecOn with
  | nil => rfl
  | append_singleton l d ih =>
    rw [dictFold_concat, updDict_keys, ih, List.map_append]
    rw [foDedup, foDedup, List.foldl_append]
    rfl

theorem foDedup_go : ∀ (xs acc : List String), acc.Nodup →
    ((xs.foldl (fun a x => insertSet x a) acc).Nodup ∧
     ∀ y, (y ∈ xs.foldl (fun a x => insertSet x a) acc ↔ y ∈ acc ∨ y ∈ xs))
  | [], acc, hacc => by simp [hacc]
  | x :: rest, acc, hacc => by
    have hstep : (insertSet x acc).Nodup := by
      rw [insertSet]
      by_cases hx : x ∈ acc
      · rw [if_pos hx]; exact hacc
      · rw [if_neg hx]
        simp [List.nodup_append, hacc, hx]
    have hmem : ∀ y, y ∈ insertSet x acc ↔ y ∈ acc ∨ y = x := by
      intro y
      rw [insertSet]
      by_cases hx : x ∈ acc
      · rw [if_pos hx]
        constructor
        · exact Or.inl
        · rintro (h | rfl)
          · exact h
          · exact hx
      · rw [if_neg hx]
        simp [List.mem_append]
    rcases foDedup_go rest (insertSet x acc) hstep with ⟨ihn, ihm⟩
    refine ⟨ihn, ?_⟩
    intro y
    rw [List.foldl_cons] at *
    rw [ihm y, hmem y]
    simp only [List.mem_cons]
    constructor
    · rintro ((h | h) | h)
      · exact Or.inl h
      · exact Or.inr (Or.inl h)
      · exact Or.inr (Or.inr h)
    · rintro (h | (h | h))
      · exact Or.inl (Or.inl h)
      · exact Or.inl (Or.inr h)
      · exact Or.inr h

theorem foDedup_nodup (xs : List String) : (foDedup xs).Nodup :=
  (foDedup_go xs [] (by simp)).1

theorem foDedup_mem (xs : List String) (y : String) : y ∈ foDedup xs ↔ y ∈ xs := by
  have h := (foDedup_go xs [] (by simp)).2 y
  simpa using h

theorem nodup_length_eq {s xs : List String} (hn : s.Nodup) (hm : ∀ y, y ∈ s ↔ y ∈ xs) :
    s.length = xs.dedup.length := by
  have h1 : s.toFinset = xs.toFinset := by
    ext y
    simp only [List.mem_toFinset]
    exact hm y
  have h2 := List.card_toFinset s
  have h3 := List.card_toFinset xs
  rw [List.Nodup.dedup hn] at h2
  rw [h1] at h2
  rw [h2.symm.trans h3]

theorem foDedup_length (xs : List String) : (foDedup xs).length = xs.dedup.length :=
  nodup_length_eq (foDedup_nodup xs) (foDedup_mem xs)

theorem mem_iff_lookupDict {β : Type} (gs : List (String × β)) (hk : (gs.map Prod.fst).Nodup)
    (k : String) (b : β) : (k, b) ∈ gs ↔ lookupDict gs k = some b := by
  induction gs with
  | nil => simp [lookupDict]
  | cons p rest ih =>
    obtain ⟨g, a⟩ := p
    simp only [List.map_cons, List.nodup_cons] at hk
    by_cases hgk : g = k
    · subst hgk
      rw [lookupDict, if_pos rfl]
      simp only [List.mem_cons]
      constructor
      · rintro (he | hmem)
        · rw [Prod.mk.injEq] at he
          rw [he.2]
        · exfalso
          exact hk.1 (by
            have := List.mem_map_of_mem Prod.fst hmem
            simpa using this)
      · intro hsome
        injection hsome with hb
        left
        rw [hb]
    · rw [lookupDict, if_neg hgk]
      rw [← ih hk.2]
      simp only [List.mem_cons]
      constructor
      · rintro (he | hm)
        · exfalso
          rw [Prod.mk.injEq] at he
          exact hgk he.1.symm
        · exact hm
      · exact Or.inr

theorem mem_dictFold_iff {α β : Type} (key : α → String) (upd : α → β → β) (e0 : β)
    (l : List α) (k : String) (b : β) :
    (k, b) ∈ dictFold key upd e0 l ↔ k ∈ l.map key ∧ b = accFor key upd e0 k l := by
  have hk : ((dictFold key upd e0 l).map Prod.fst).Nodup := by
    rw [dictFold_keys]
    exact foDedup_nodup _
  rw [mem_iff_lookupDict _ hk, lookupDict_dictFold]
  by_cases hm : k ∈ l.map key
  · rw [if_pos hm]
    simp only [hm, true_and, Option.some.injEq]
    exact eq_comm
  · rw [if_neg hm]
    simp [hm]

theorem gameAccFold_instances : ∀ (l : List DeploymentStatus) (a0 : GameAcc),
    (l.foldl (fun a d => updAcc d a) a0).instances
      = (l.map DeploymentStatus.inst).foldl (fun acc x => insertSet x acc) a0.instances
  | [], _ => rfl
  | r :: l, a0 => by
    simp only [List.foldl_cons, List.map_cons]
    rw [gameAccFold_instances l (updAcc r a0)]
    rfl

theorem gameAccFold_components : ∀ (l : List DeploymentStatus) (a0 : GameAcc),
    (l.foldl (fun a d => updAcc d a) a0).components
      = (l.map (fun d => d.inst ++ "/" ++ d.component)).foldl
          (fun acc x => insertSet x acc) a0.components
  | [], _ => rfl
  | r :: l, a0 => by
    simp only [List.foldl_cons, List.map_cons]
    rw [gameAccFold_components l (updAcc r a0)]
    rfl

theorem gameAccFold_failing : ∀ (l : List DeploymentStatus) (a0 : GameAcc),
    (l.foldl (fun a d => updAcc d a) a0).failing
      = a0.failing + l.countP (fun d => decide (d.status = "failed"))
  | [], _ => by simp
  | r :: l, a0 => by
    simp only [List.foldl_cons]
    rw [gameAccFold_failing l (updAcc r a0), List.countP_cons]
    by_cases hf : r.status = "failed"
    · simp [updAcc, hf]
      omega
    · simp [updAcc, hf]

theorem accForGame_instances (k : String) (records : List DeploymentStatus) :
    (accFor (fun d => d.game) updAcc (GameAcc.mk [] [] 0) k records).instances
      = foDedup ((records.filter (fun d => decide (d.game = k))).map
          DeploymentStatus.inst) := by
  rw [accFor, gameAccFold_instances]
  rfl

theorem accForGame_components (k : String) (records : List DeploymentStatus) :
    (accFor (fun d => d.game) updAcc (GameAcc.mk [] [] 0) k records).components
      = foDedup ((records.filter (fun d => decide (d.game = k))).map
          (fun d => d.inst ++ "/" ++ d.component)) := by
  rw [accFor, gameAccFold_components]
  rfl

theorem accForGame_failing (k : String) (records : List DeploymentStatus) :
    (accFor (fun d => d.game) updAcc (GameAcc.mk [] [] 0) k records).failing
      = (records.filter (fun d => decide (d.game = k))).countP
          (fun d => decide (d.status = "failed")) := by
  rw [accFor, gameAccFold_failing]
  simp

/-- C6 (amended): `get_games` groups the surviving records by game and, per
game, reports the number of distinct instance names, the number of distinct
joined `instance ++ "/" ++ component` strings (which can differ from the
number of distinct (instance, component) pairs when a name contains "/"),
and the number of records with failed status; the summaries are sorted by
game name, one per distinct game. -/
theorem gameSummaryAggregation (records : List DeploymentStatus) :
    List.Sorted (fun g1 g2 : Game => g1.name ≤ g2.name) (gamesOf records) ∧
    ((gamesOf records).map Game.name).Nodup ∧
    (∀ g : Game, g ∈ gamesOf records ↔
      g.name ∈ records.map DeploymentStatus.game ∧
      g.instanceCount =
        (((records.filter (fun d => decide (d.game = g.name))).map
          DeploymentStatus.inst).dedup).length ∧
      g.componentCount =
        (((records.filter (fun d => decide (d.game = g.name))).map
          (fun d => d.inst ++ "/" ++ d.component)).dedup).length ∧
      g.failingDeployments =
        (records.filter (fun d => decide (d.game = g.name))).countP
          (fun d => decide (d.status = "failed"))) := by
  refine ⟨List.sorted_insertionSort _ _, ?_, ?_⟩
  · have h1 := List.perm_insertionSort (fun g1 g2 : Game => g1.name ≤ g2.name)
      ((dictFold (fun d => d.game) updAcc (GameAcc.mk [] [] 0) records).map
        (fun p => Game.mk p.1 p.2.instances.length p.2.components.length p.2.failing))
    have h2 := h1.map Game.name
    rw [List.map_map] at h2
    have h3 : ((dictFold (fun d => d.game) updAcc (GameAcc.mk [] [] 0) records).map
        (Game.name ∘ fun p => Game.mk p.1 p.2.instances.length p.2.components.length p.2.failing))
        = (dictFold (fun d => d.game) updAcc (GameAcc.mk [] [] 0) records).map Prod.fst := rfl
    rw [h3, dictFold_keys] at h2
    exact h2.nodup_iff.mpr (foDedup_nodup _)
  · intro g
    rw [gamesOf, List.mem_insertionSort, List.mem_map]
    constructor
    · rintro ⟨p, hp, hg⟩
      obtain ⟨k, a⟩ := p
      rw [mem_dictFold_iff] at hp
      obtain ⟨hk, ha⟩ := hp
      rw [← hg]
      subst ha
      refine ⟨hk, ?_, ?_, ?_⟩
      · rw [accForGame_instances, foDedup_length]
      · rw [accForGame_components, foDedup_length]
      · rw [accForGame_failing]
    · obtain ⟨n, ic, cc, fd⟩ := g
      rintro ⟨hname, hic, hcc, hfd⟩
      refine ⟨(n, accFor (fun d => d.game) updAcc (GameAcc.mk [] [] 0) n records), ?_, ?_⟩
      · rw [mem_dictFold_iff]
        exact ⟨hname, by trivial⟩
      · simp only [Game.mk.injEq]
        refine ⟨trivial, ?_, ?_, ?_⟩
        · rw [accForGame_instances, foDedup_length]
          exact hic.symm
        · rw [accForGame_components, foDedup_length]
          exact hcc.symm
        · rw [accForGame_failing]
          exact hfd.symm

/-- C6 counterexample: for the two records whose (instance, component) pairs
are ("a/b", "c") and ("a", "b/c"), the joined strings coincide, so
`get_games` reports `component_count = 1` although the records carry 2
distinct (instance, component) pairs. -/
theorem gameSummaryPairCounterexample :
    (gamesOf [cexRecA, cexRecB]).map Game.componentCount = [1] ∧
    (([cexRecA, cexRecB].filter (fun d => decide (d.game = "g"))).map
        (fun d => (d.inst, d.component))).dedup.length = 2 := by
  constructor
  · rfl
  · rfl

theorem foldl_snoc_eq_append {α : Type} : ∀ (l acc : List α),
    l.foldl (fun a d => a ++ [d]) acc = acc ++ l
  | [], acc => by simp
  | x :: l, acc => by
    simp only [List.foldl_cons]
    rw [foldl_snoc_eq_append l (acc ++ [x])]
    simp

theorem accForInst (k : String) (l : List DeploymentStatus) :
    accFor (fun d => d.inst) (fun d a => a ++ [d]) ([] : List DeploymentStatus) k l
      = l.filter (fun d => decide (d.inst = k)) := by
  rw [accFor, foldl_snoc_eq_append]
  simp

theorem flatMap_congr_mem {α β : Type} {f g : α → List β} :
    ∀ (l : List α), (∀ a ∈ l, f a = g a) → l.flatMap f = l.flatMap g
  | [], _ => rfl
  | x :: l, h => by
    rw [List.flatMap_cons, List.flatMap_cons, h x (List.mem_cons_self x l),
      flatMap_congr_mem l (fun a ha => h a (List.mem_cons_of_mem x ha))]

theorem flatMap_snd_eq {β : Type} (F : String → List β) :
    ∀ gs : List (String × List β), (∀ p ∈ gs, p.2 = F p.1) →
      gs.flatMap (fun p => p.2) = (gs.map Prod.fst).flatMap F
  | [], _ => rfl
  | p :: rest, h => by
    rw [List.flatMap_cons, List.map_cons, List.flatMap_cons,
      h p (List.mem_cons_self p rest),
      flatMap_snd_eq F rest (fun q hq => h q (List.mem_cons_of_mem p hq))]

theorem filterPartitionPerm {α : Type} (key : α → String) :
    ∀ (ks : List String) (l : List α), ks.Nodup → (∀ d ∈ l, key d ∈ ks) →
      (ks.flatMap (fun k => l.filter (fun d => decide (key d = k)))).Perm l
  | [], l, _, hall => by
    have hl : l = [] := by
      cases l with
      | nil => rfl
      | cons x xs => exact absurd (hall x (List.mem_cons_self x xs)) (by simp)
    rw [hl]
    simp
  | k :: ks, l, hnd, hall => by
    rw [List.flatMap_cons]
    rw [List.nodup_cons] at hnd
    have htail : ks.flatMap (fun k2 => l.filter (fun d => decide (key d = k2)))
        = ks.flatMap (fun k2 => (l.filter (fun d => !decide (key d = k))).filter
            (fun d => decide (key d = k2))) := by
      apply flatMap_congr_mem
      intro k2 hk2
      have hne : k2 ≠ k := fun he => hnd.1 (he ▸ hk2)
      rw [List.filter_filter]
      apply List.filter_congr
      intro a _
      by_cases ha : key a = k2
      · simp [ha, hne]
      · simp [ha]
    rw [htail]
    have hsub : ∀ d ∈ l.filter (fun d => !decide (key d = k)), key d ∈ ks := by
      intro d hd
      rw [List.mem_filter] at hd
      rcases List.mem_cons.mp (hall d hd.1) with hkk | hks
      · exfalso
        have hd2 := hd.2
        simp [hkk] at hd2
      · exact hks
    have hperm2 := filterPartitionPerm key ks
      (l.filter (fun d => !decide (key d = k))) hnd.2 hsub
    exact (hperm2.append_left _).trans (List.filter_append_perm _ l)

/-- C7: `get_game_instances` partitions the records of the requested game:
the concatenation of all groups' components is a permutation of exactly the
records whose game matches (no record dropped, none duplicated), every
record sits in the group named by its instance, components within a group
are sorted by component name, and the groups are sorted by (distinct)
instance name. -/
theorem gameInstancesPartition (records : List DeploymentStatus) (gameName : String) :
    ((gameInstancesOf records gameName).flatMap GameInstance.components).Perm
      (records.filter (fun d => decide (d.game = gameName))) ∧
    (∀ gi ∈ gameInstancesOf records gameName, ∀ d ∈ gi.components,
      d.game = gameName ∧ d.inst = gi.name) ∧
    (∀ gi ∈ gameInstancesOf records gameName,
      List.Sorted (fun d1 d2 : DeploymentStatus => d1.component ≤ d2.component)
        gi.components) ∧
    List.Sorted (fun i1 i2 : GameInstance => i1.name ≤ i2.name)
      (gameInstancesOf records gameName) ∧
    ((gameInstancesOf records gameName).map GameInstance.name).Nodup := by
  have hentries : ∀ p ∈ dictFold (fun d : DeploymentStatus => d.inst)
      (fun d a => a ++ [d]) ([] : List DeploymentStatus)
      (records.filter (fun d => decide (d.game = gameName))),
      p.2 = (records.filter (fun d => decide (d.game = gameName))).filter
        (fun d => decide (d.inst = p.1)) := by
    intro p hp
    obtain ⟨k, b⟩ := p
    rw [mem_dictFold_iff] at hp
    rw [hp.2, accForInst]
  refine ⟨?_, ?_, ?_, List.sorted_insertionSort _ _, ?_⟩
  · have h1 : (gameInstancesOf records gameName).Perm
        ((dictFold (fun d : DeploymentStatus => d.inst) (fun d a => a ++ [d])
          ([] : List DeploymentStatus)
          (records.filter (fun d => decide (d.game = gameName)))).map
          (fun p => GameInstance.mk p.1
            (List.insertionSort (fun d1 d2 => d1.component ≤ d2.component) p.2))) :=
      List.perm_insertionSort _ _
    have h2 := h1.flatMap_right GameInstance.components
    rw [List.flatMap_map] at h2
    have h3 : ((dictFold (fun d : DeploymentStatus => d.inst) (fun d a => a ++ [d])
        ([] : List DeploymentStatus)
        (records.filter (fun d => decide (d.game = gameName)))).flatMap
        (fun p => List.insertionSort (fun d1 d2 => d1.component ≤ d2.component) p.2)).Perm
        ((dictFold (fun d : DeploymentStatus => d.inst) (fun d a => a ++ [d])
        ([] : List DeploymentStatus)
        (records.filter (fun d => decide (d.game = gameName)))).flatMap
        (fun p => p.2)) :=
      List.Perm.flatMap_left _ (fun p _ => List.perm_insertionSort _ _)
    have h4 := flatMap_snd_eq
      (fun k => (records.filter (fun d => decide (d.game = gameName))).filter
        (fun d => decide (d.inst = k))) _ hentries
    have hkeys : ((dictFold (fun d : DeploymentStatus => d.inst) (fun d a => a ++ [d])
        ([] : List DeploymentStatus)
        (records.filter (fun d => decide (d.game = gameName)))).map Prod.fst)
        = foDedup ((records.filter (fun d => decide (d.game = gameName))).map
            (fun d => d.inst)) := dictFold_keys _ _ _ _
    have h5 : (((dictFold (fun d : DeploymentStatus => d.inst) (fun d a => a ++ [d])
        ([] : List DeploymentStatus)
        (records.filter (fun d => decide (d.game = gameName)))).map Prod.fst).flatMap
        (fun k => (records.filter (fun d => decide (d.game = gameName))).filter
          (fun d => decide (d.inst = k)))).Perm
        (records.filter (fun d => decide (d.game = gameName))) := by
      rw [hkeys]
      apply filterPartitionPerm
      · exact foDedup_nodup _
      · intro d hd
        rw [foDedup_mem]
        exact List.mem_map_of_mem (fun d => d.inst) hd
    exact ((h2.trans h3).trans (h4 ▸ h5))
  · intro gi hgi d hd
    rw [gameInstancesOf, List.mem_insertionSort, List.mem_map] at hgi
    obtain ⟨p, hp, hmk⟩ := hgi
    have hp2 := hentries p hp
    rw [← hmk] at hd
    simp only [] at hd
    rw [List.mem_insertionSort, hp2, List.mem_filter, List.mem_filter] at hd
    refine ⟨?_, ?_⟩
    · have := hd.1.2
      simpa using this
    · rw [← hmk]
      have := hd.2
      simpa using this
  · intro gi hgi
    rw [gameInstancesOf, List.mem_insertionSort, List.mem_map] at hgi
    obtain ⟨p, _, hmk⟩ := hgi
    rw [← hmk]
    exact List.sorted_insertionSort _ _
  · have h1 : (gameInstancesOf records gameName).Perm
        ((dictFold (fun d : DeploymentStatus => d.inst) (fun d a => a ++ [d])
          ([] : List DeploymentStatus)
          (records.filter (fun d => decide (d.game = gameName)))).map
          (fun p => GameInstance.mk p.1
            (List.insertionSort (fun d1 d2 => d1.component ≤ d2.component) p.2))) :=
      List.perm_insertionSort _ _
    have h2 := h1.map GameInstance.name
    rw [List.map_map] at h2
    have h3 : ((dictFold (fun d : DeploymentStatus => d.inst) (fun d a => a ++ [d])
        ([] : List DeploymentStatus)
        (records.filter (fun d => decide (d.game = gameName)))).map
        (GameInstance.name ∘ fun p => GameInstance.mk p.1
          (List.insertionSort (fun d1 d2 => d1.component ≤ d2.component) p.2)))
        = ((dictFold (fun d : DeploymentStatus => d.inst) (fun d a => a ++ [d])
        ([] : List DeploymentStatus)
        (records.filter (fun d => decide (d.game = gameName)))).map Prod.fst) := rfl
    rw [h3, dictFold_keys] at h2
    exact h2.nodup_iff.mpr (foDedup_nodup _)
